import Mathlib

/-!
# Verification of hyperparameter_hunter against its specification

This file embeds the relevant parts of the `hyperparameter_hunter` repository
in Lean 4 and proves (or refutes) the claims of its natural-language
specification.

Embedded from source files:
* `hyperparameter_hunter/reporting.py` — `ReportingHandler.validate_parameters`,
  `OptimizationReporter.print_result`, and the module-level `log` function.
* `hyperparameter_hunter/utils/file_utils.py` — `add_to_json`.

Modelled from the spec (their defining modules, e.g. `environment.py` and the
optimization modules, are not part of the given sources; only their tests are):
* the `Environment` configuration-fingerprinting scheme (canonicalization by
  key-sorting, callable normalization), and
* the similarity lookup consulted during optimization.

Machine reals (Python floats) that only flow through formatting are carried as
their formatted text; numeric values compared by the code are modelled by `Int`
(and `ℚ` for continuous search-dimension bounds), i.e. over a total order, so
IEEE NaN corner cases are outside the model.
-/

/-! ## Configuration values

`ConfigVal` models the nested Python configuration objects that
`Environment` fingerprints: mappings (dicts), lists, primitives, and
callables.  A callable carries its semantic identity (qualified name or
source text) and its memory identity (the `id()` of the object, which
changes between runs). -/

inductive ConfigVal where
  | null : ConfigVal
  | boolean : Bool → ConfigVal
  | int : Int → ConfigVal
  | str : String → ConfigVal
  | callable : String → Nat → ConfigVal
  | list : List ConfigVal → ConfigVal
  | map : List (String × ConfigVal) → ConfigVal

mutual

/-- Structural equality test for `ConfigVal` (hand-rolled because `deriving
DecidableEq` does not handle the nested lists). -/
def cfgBeq : ConfigVal → ConfigVal → Bool
  | .null, .null => true
  | .boolean a, .boolean b => a == b
  | .int a, .int b => a == b
  | .str a, .str b => a == b
  | .callable s m, .callable t n => s == t && m == n
  | .list xs, .list ys => cfgBeqList xs ys
  | .map ps, .map qs => cfgBeqPairs ps qs
  | _, _ => false

def cfgBeqList : List ConfigVal → List ConfigVal → Bool
  | [], [] => true
  | x :: xs, y :: ys => cfgBeq x y && cfgBeqList xs ys
  | _, _ => false

def cfgBeqPairs : List (String × ConfigVal) → List (String × ConfigVal) → Bool
  | [], [] => true
  | (k, v) :: ps, (k2, w) :: qs => k == k2 && cfgBeq v w && cfgBeqPairs ps qs
  | _, _ => false

end

mutual

theorem cfgBeq_iff : ∀ {a b : ConfigVal}, cfgBeq a b = true ↔ a = b
  | .null, .null => by simp [cfgBeq]
  | .boolean _, .boolean _ => by simp [cfgBeq]
  | .int _, .int _ => by simp [cfgBeq]
  | .str _, .str _ => by simp [cfgBeq]
  | .callable _ _, .callable _ _ => by simp [cfgBeq]
  | .list _, .list _ => by simp [cfgBeq, cfgBeqList_iff]
  | .map _, .map _ => by simp [cfgBeq, cfgBeqPairs_iff]
  | .null, .boolean _ => by simp [cfgBeq]
  | .null, .int _ => by simp [cfgBeq]
  | .null, .str _ => by simp [cfgBeq]
  | .null, .callable _ _ => by simp [cfgBeq]
  | .null, .list _ => by simp [cfgBeq]
  | .null, .map _ => by simp [cfgBeq]
  | .boolean _, .null => by simp [cfgBeq]
  | .boolean _, .int _ => by simp [cfgBeq]
  | .boolean _, .str _ => by simp [cfgBeq]
  | .boolean _, .callable _ _ => by simp [cfgBeq]
  | .boolean _, .list _ => by simp [cfgBeq]
  | .boolean _, .map _ => by simp [cfgBeq]
  | .int _, .null => by simp [cfgBeq]
  | .int _, .boolean _ => by simp [cfgBeq]
  | .int _, .str _ => by simp [cfgBeq]
  | .int _, .callable _ _ => by simp [cfgBeq]
  | .int _, .list _ => by simp [cfgBeq]
  | .int _, .map _ => by simp [cfgBeq]
  | .str _, .null => by simp [cfgBeq]
  | .str _, .boolean _ => by simp [cfgBeq]
  | .str _, .int _ => by simp [cfgBeq]
  | .str _, .callable _ _ => by simp [cfgBeq]
  | .str _, .list _ => by simp [cfgBeq]
  | .str _, .map _ => by simp [cfgBeq]
  | .callable _ _, .null => by simp [cfgBeq]
  | .callable _ _, .boolean _ => by simp [cfgBeq]
  | .callable _ _, .int _ => by simp [cfgBeq]
  | .callable _ _, .str _ => by simp [cfgBeq]
  | .callable _ _, .list _ => by simp [cfgBeq]
  | .callable _ _, .map _ => by simp [cfgBeq]
  | .list _, .null => by simp [cfgBeq]
  | .list _, .boolean _ => by simp [cfgBeq]
  | .list _, .int _ => by simp [cfgBeq]
  | .list _, .str _ => by simp [cfgBeq]
  | .list _, .callable _ _ => by simp [cfgBeq]
  | .list _, .map _ => by simp [cfgBeq]
  | .map _, .null => by simp [cfgBeq]
  | .map _, .boolean _ => by simp [cfgBeq]
  | .map _, .int _ => by simp [cfgBeq]
  | .map _, .str _ => by simp [cfgBeq]
  | .map _, .callable _ _ => by simp [cfgBeq]
  | .map _, .list _ => by simp [cfgBeq]

theorem cfgBeqList_iff : ∀ {xs ys : List ConfigVal}, cfgBeqList xs ys = true ↔ xs = ys
  | [], [] => by simp [cfgBeqList]
  | _ :: _, _ :: _ => by simp [cfgBeqList, cfgBeq_iff, cfgBeqList_iff]
  | [], _ :: _ => by simp [cfgBeqList]
  | _ :: _, [] => by simp [cfgBeqList]

theorem cfgBeqPairs_iff :
    ∀ {ps qs : List (String × ConfigVal)}, cfgBeqPairs ps qs = true ↔ ps = qs
  | [], [] => by simp [cfgBeqPairs]
  | (_, _) :: _, (_, _) :: _ => by
      simp [cfgBeqPairs, cfgBeq_iff, cfgBeqPairs_iff, and_assoc]
  | [], _ :: _ => by simp [cfgBeqPairs]
  | _ :: _, [] => by simp [cfgBeqPairs]

end

instance : DecidableEq ConfigVal := fun a b => decidable_of_iff (cfgBeq a b = true) cfgBeq_iff

/-! ## Canonicalization and fingerprinting

Modelled from the spec: "Mappings are canonicalized by sorting keys before
serialization so ordering never affects the digest" and "Callable values
(e.g., a custom metric function) are normalized to a representation based on
their semantic identity (name or source) rather than memory identity".
The spec's digest is a collision-free hash of the canonically serialized
configuration; since an injective hash preserves exactly the equalities and
inequalities of the canonical form, the digest is modelled by the canonical
form itself. -/

/-- Key order used to canonicalize mappings: compare the (string) keys. -/
def KeyLe (a b : String × ConfigVal) : Prop := a.1 ≤ b.1

/-- Strict key order, used to identify sorted duplicate-free key lists. -/
def KeyLt (a b : String × ConfigVal) : Prop := a.1 < b.1

instance : DecidableRel KeyLe := fun a b => inferInstanceAs (Decidable (a.1 ≤ b.1))

instance : IsTotal (String × ConfigVal) KeyLe := ⟨fun a b => le_total a.1 b.1⟩

instance : IsTrans (String × ConfigVal) KeyLe := ⟨fun _ _ _ h₁ h₂ => le_trans h₁ h₂⟩

instance : IsAntisymm (String × ConfigVal) KeyLt :=
  ⟨fun _ _ h₁ h₂ => absurd (lt_trans h₁ h₂) (lt_irrefl _)⟩

/-- Sort a mapping's key/value pairs by key (the canonical key order). -/
def sortPairs (l : List (String × ConfigVal)) : List (String × ConfigVal) :=
  List.insertionSort KeyLe l

mutual

/-- Modelled from the spec: canonicalize a configuration value; every mapping
is sorted by key, and every callable is reduced to its semantic identity
(its memory identity is erased). -/
def canonVal : ConfigVal → ConfigVal
  | .null => .null
  | .boolean b => .boolean b
  | .int n => .int n
  | .str s => .str s
  | .callable sem _ => .callable sem 0
  | .list xs => .list (canonList xs)
  | .map kvs => .map (sortPairs (canonPairs kvs))

def canonList : List ConfigVal → List ConfigVal
  | [] => []
  | x :: xs => canonVal x :: canonList xs

def canonPairs : List (String × ConfigVal) → List (String × ConfigVal)
  | [] => []
  | (k, v) :: ps => (k, canonVal v) :: canonPairs ps

end

/-- Modelled from the spec: the fingerprint computed at `Environment`
construction.  The spec's hash layer is injective by design ("negligible
collision probability"), so the fingerprint is modelled as the canonical
form of the configuration. -/
def fingerprint (c : ConfigVal) : ConfigVal := canonVal c

/-- The keys of an association list. -/
def keysOf (l : List (String × ConfigVal)) : List String := l.map Prod.fst

/-- Does key `k` occur in the pair list?  (Python dict keys are unique, so
well-formed configurations never repeat a key.) -/
def hasKey (k : String) : List (String × ConfigVal) → Bool
  | [] => false
  | (k2, _) :: rest => k == k2 || hasKey k rest

/-- All keys of the pair list are distinct. -/
def nodupKeysB : List (String × ConfigVal) → Bool
  | [] => true
  | (k, _) :: rest => !(hasKey k rest) && nodupKeysB rest

mutual

/-- Well-formedness of a configuration value: every mapping in it has
duplicate-free keys (true of every Python dict). -/
def wfB : ConfigVal → Bool
  | .list xs => wfListB xs
  | .map kvs => nodupKeysB kvs && wfPairsB kvs
  | _ => true

def wfListB : List ConfigVal → Bool
  | [] => true
  | x :: xs => wfB x && wfListB xs

def wfPairsB : List (String × ConfigVal) → Bool
  | [] => true
  | (_, v) :: ps => wfB v && wfPairsB ps

end

/-- Find the value stored under key `k`, together with the rest of the pair
list (used to match mappings up to key reordering). -/
def extractKey (k : String) : List (String × ConfigVal) →
    Option (ConfigVal × List (String × ConfigVal))
  | [] => none
  | (k2, w) :: rest =>
      if k = k2 then some (w, rest)
      else
        match extractKey k rest with
        | some (w2, rest2) => some (w2, (k2, w) :: rest2)
        | none => none

mutual

/-- Two configuration values "differ only in the key ordering of an
equivalent mapping": identical atoms, element-wise equivalent lists, and
mappings related by a permutation that pairs each key with an equivalent
value. -/
def equivB : ConfigVal → ConfigVal → Bool
  | .null, .null => true
  | .boolean a, .boolean b => a == b
  | .int a, .int b => a == b
  | .str a, .str b => a == b
  | .callable s m, .callable t n => s == t && m == n
  | .list xs, .list ys => equivListB xs ys
  | .map ps, .map qs => equivMapB ps qs
  | _, _ => false

def equivListB : List ConfigVal → List ConfigVal → Bool
  | [], [] => true
  | x :: xs, y :: ys => equivB x y && equivListB xs ys
  | _, _ => false

def equivMapB : List (String × ConfigVal) → List (String × ConfigVal) → Bool
  | [], [] => true
  | [], _ :: _ => false
  | (k, v) :: ps, qs =>
      match extractKey k qs with
      | some (w, qs2) => equivB v w && equivMapB ps qs2
      | none => false

end

mutual

/-- Two configuration values are identical except possibly in the memory
identity of callables (the situation of "equivalent callables passed on
different runs"). -/
def sameCallB : ConfigVal → ConfigVal → Bool
  | .null, .null => true
  | .boolean a, .boolean b => a == b
  | .int a, .int b => a == b
  | .str a, .str b => a == b
  | .callable s _, .callable t _ => s == t
  | .list xs, .list ys => sameCallListB xs ys
  | .map ps, .map qs => sameCallPairsB ps qs
  | _, _ => false

def sameCallListB : List ConfigVal → List ConfigVal → Bool
  | [], [] => true
  | x :: xs, y :: ys => sameCallB x y && sameCallListB xs ys
  | _, _ => false

def sameCallPairsB : List (String × ConfigVal) → List (String × ConfigVal) → Bool
  | [], [] => true
  | (k, v) :: ps, (k2, w) :: qs => k == k2 && sameCallB v w && sameCallPairsB ps qs
  | _, _ => false

end

/-- Association-list lookup (Python `d[k]` on the modelled dict). -/
def lookupKey (k : String) : List (String × ConfigVal) → Option ConfigVal
  | [] => none
  | (k2, v) :: rest => if k = k2 then some v else lookupKey k rest

/-! ## Lemmas about canonicalization -/

theorem canonPairs_eq_map (l : List (String × ConfigVal)) :
    canonPairs l = l.map (fun p => (p.1, canonVal p.2)) := by
  induction l with
  | nil => rfl
  | cons p ps ih => cases p; simp [canonPairs, ih]

theorem keysOf_canonPairs (l : List (String × ConfigVal)) :
    keysOf (canonPairs l) = keysOf l := by
  simp [keysOf, canonPairs_eq_map]

theorem sortPairs_perm (l : List (String × ConfigVal)) : (sortPairs l).Perm l :=
  List.perm_insertionSort KeyLe l

theorem sortPairs_sorted (l : List (String × ConfigVal)) :
    List.Sorted KeyLe (sortPairs l) :=
  List.sorted_insertionSort KeyLe l

theorem hasKey_iff (k : String) (l : List (String × ConfigVal)) :
    hasKey k l = true ↔ k ∈ keysOf l := by
  induction l with
  | nil => simp [hasKey, keysOf]
  | cons p ps ih =>
      cases p with
      | mk k2 v =>
          rw [show keysOf ((k2, v) :: ps) = k2 :: keysOf ps from rfl, List.mem_cons, ← ih]
          simp [hasKey]

theorem nodupKeysB_iff (l : List (String × ConfigVal)) :
    nodupKeysB l = true ↔ (keysOf l).Nodup := by
  induction l with
  | nil => simp [nodupKeysB, keysOf]
  | cons p ps ih =>
      cases p with
      | mk k v =>
          rw [show keysOf ((k, v) :: ps) = k :: keysOf ps from rfl, List.nodup_cons, ← ih,
            ← hasKey_iff]
          simp [nodupKeysB]

theorem sorted_keyLt_of_sorted_nodup {l : List (String × ConfigVal)}
    (hs : List.Sorted KeyLe l) (hnd : (keysOf l).Nodup) : List.Sorted KeyLt l := by
  have hne : l.Pairwise (fun a b : String × ConfigVal => a.1 ≠ b.1) := by
    simpa [keysOf, List.Nodup, List.pairwise_map] using hnd
  exact (List.Pairwise.and hs hne).imp (fun h => lt_of_le_of_ne h.1 h.2)

/-- Sorting by key is invariant under permutation of duplicate-free pair
lists: this is exactly why key-sorting canonicalizes dict ordering. -/
theorem sortPairs_eq_of_perm {l₁ l₂ : List (String × ConfigVal)}
    (h : l₁.Perm l₂) (hnd : (keysOf l₁).Nodup) : sortPairs l₁ = sortPairs l₂ := by
  have hperm : (sortPairs l₁).Perm (sortPairs l₂) :=
    ((sortPairs_perm l₁).trans h).trans (sortPairs_perm l₂).symm
  have hnd₁ : (keysOf (sortPairs l₁)).Nodup :=
    (((sortPairs_perm l₁).map Prod.fst).symm).nodup hnd
  have hnd₂ : (keysOf (sortPairs l₂)).Nodup :=
    ((hperm.map Prod.fst)).nodup hnd₁
  exact List.eq_of_perm_of_sorted hperm
    (sorted_keyLt_of_sorted_nodup (sortPairs_sorted l₁) hnd₁)
    (sorted_keyLt_of_sorted_nodup (sortPairs_sorted l₂) hnd₂)

theorem wfPairsB_iff_forall (l : List (String × ConfigVal)) :
    wfPairsB l = true ↔ ∀ p ∈ l, wfB p.2 = true := by
  induction l with
  | nil => simp [wfPairsB]
  | cons p ps ih => cases p; simp [wfPairsB, ih]

theorem extractKey_perm {k : String} :
    ∀ {qs : List (String × ConfigVal)} {w qs2},
      extractKey k qs = some (w, qs2) → qs.Perm ((k, w) :: qs2)
  | [], _, _, h => by simp [extractKey] at h
  | (k2, w2) :: rest, w, qs2, h => by
      by_cases hk : k = k2
      · subst hk
        simp only [extractKey, if_pos rfl, Option.some.injEq, Prod.mk.injEq] at h
        obtain ⟨rfl, rfl⟩ := h
        exact List.Perm.refl _
      · simp only [extractKey, if_neg hk] at h
        cases hrec : extractKey k rest with
        | none => rw [hrec] at h; exact absurd h (by simp)
        | some p =>
            obtain ⟨w3, rest2⟩ := p
            rw [hrec] at h
            simp only [Option.some.injEq, Prod.mk.injEq] at h
            obtain ⟨rfl, rfl⟩ := h
            exact ((extractKey_perm hrec).cons (k2, w2)).trans (List.Perm.swap _ _ _)

theorem lookupKey_canonPairs (k : String) (l : List (String × ConfigVal)) :
    lookupKey k (canonPairs l) = (lookupKey k l).map canonVal := by
  induction l with
  | nil => simp [canonPairs, lookupKey]
  | cons p ps ih =>
      cases p with
      | mk k2 v => by_cases h : k = k2 <;> simp [canonPairs, lookupKey, h, ih]

theorem lookupKey_perm {l₁ l₂ : List (String × ConfigVal)} (h : l₁.Perm l₂)
    (hnd : (keysOf l₁).Nodup) (k : String) : lookupKey k l₁ = lookupKey k l₂ := by
  induction h with
  | nil => rfl
  | cons x hperm ih =>
      cases x with
      | mk k2 v =>
          have hnd2 : (keysOf _).Nodup := (List.nodup_cons.1 hnd).2
          by_cases hk : k = k2 <;> simp [lookupKey, hk, ih hnd2]
  | swap x y l =>
      cases x with
      | mk kx vx =>
          cases y with
          | mk ky vy =>
              have hxy : ky ≠ kx := by
                have := (List.nodup_cons.1 hnd).1
                simp only [keysOf, List.map_cons, List.mem_cons] at this
                intro hc
                exact this (Or.inl hc)
              by_cases h1 : k = kx <;> by_cases h2 : k = ky <;>
                simp [lookupKey, h1, h2] <;> simp_all
  | trans h₁ h₂ ih₁ ih₂ =>
      have hndmid : (keysOf _).Nodup := ((h₁.map Prod.fst)).nodup hnd
      exact (ih₁ hnd).trans (ih₂ hndmid)

theorem keysOf_nodup_sortCanon {kvs : List (String × ConfigVal)}
    (hnd : (keysOf kvs).Nodup) : (keysOf (sortPairs (canonPairs kvs))).Nodup := by
  have h1 : (keysOf (canonPairs kvs)).Nodup := by rwa [keysOf_canonPairs]
  exact (((sortPairs_perm (canonPairs kvs)).map Prod.fst).symm).nodup h1

theorem lookupKey_fingerprint_map (k : String) (kvs : List (String × ConfigVal))
    (hnd : (keysOf kvs).Nodup) :
    lookupKey k (sortPairs (canonPairs kvs)) = (lookupKey k kvs).map canonVal := by
  rw [lookupKey_perm (sortPairs_perm (canonPairs kvs)) (keysOf_nodup_sortCanon hnd) k,
    lookupKey_canonPairs]

mutual

theorem canonVal_eq_of_equivB : ∀ {a b : ConfigVal}, equivB a b = true →
    wfB a = true → wfB b = true → canonVal a = canonVal b
  | .null, .null, _, _, _ => rfl
  | .boolean _, .boolean _, h, _, _ => by
      simp only [equivB, beq_iff_eq] at h; rw [h]
  | .int _, .int _, h, _, _ => by
      simp only [equivB, beq_iff_eq] at h; rw [h]
  | .str _, .str _, h, _, _ => by
      simp only [equivB, beq_iff_eq] at h; rw [h]
  | .callable _ _, .callable _ _, h, _, _ => by
      simp only [equivB, Bool.and_eq_true, beq_iff_eq] at h
      simp [canonVal, h.1]
  | .list xs, .list ys, h, wa, wb => by
      simp only [equivB] at h
      simp only [wfB] at wa wb
      simp [canonVal, canonList_eq_of_equivListB h wa wb]
  | .map ps, .map qs, h, wa, wb => by
      simp only [equivB] at h
      simp only [wfB, Bool.and_eq_true] at wa wb
      have hson := sortCanon_eq_of_equivMapB h ((nodupKeysB_iff _).1 wa.1) wa.2
        ((nodupKeysB_iff _).1 wb.1) wb.2
      simp [canonVal, hson]
  | .null, .boolean _, h, _, _ => by simp [equivB] at h
  | .null, .int _, h, _, _ => by simp [equivB] at h
  | .null, .str _, h, _, _ => by simp [equivB] at h
  | .null, .callable _ _, h, _, _ => by simp [equivB] at h
  | .null, .list _, h, _, _ => by simp [equivB] at h
  | .null, .map _, h, _, _ => by simp [equivB] at h
  | .boolean _, .null, h, _, _ => by simp [equivB] at h
  | .boolean _, .int _, h, _, _ => by simp [equivB] at h
  | .boolean _, .str _, h, _, _ => by simp [equivB] at h
  | .boolean _, .callable _ _, h, _, _ => by simp [equivB] at h
  | .boolean _, .list _, h, _, _ => by simp [equivB] at h
  | .boolean _, .map _, h, _, _ => by simp [equivB] at h
  | .int _, .null, h, _, _ => by simp [equivB] at h
  | .int _, .boolean _, h, _, _ => by simp [equivB] at h
  | .int _, .str _, h, _, _ => by simp [equivB] at h
  | .int _, .callable _ _, h, _, _ => by simp [equivB] at h
  | .int _, .list _, h, _, _ => by simp [equivB] at h
  | .int _, .map _, h, _, _ => by simp [equivB] at h
  | .str _, .null, h, _, _ => by simp [equivB] at h
  | .str _, .boolean _, h, _, _ => by simp [equivB] at h
  | .str _, .int _, h, _, _ => by simp [equivB] at h
  | .str _, .callable _ _, h, _, _ => by simp [equivB] at h
  | .str _, .list _, h, _, _ => by simp [equivB] at h
  | .str _, .map _, h, _, _ => by simp [equivB] at h
  | .callable _ _, .null, h, _, _ => by simp [equivB] at h
  | .callable _ _, .boolean _, h, _, _ => by simp [equivB] at h
  | .callable _ _, .int _, h, _, _ => by simp [equivB] at h
  | .callable _ _, .str _, h, _, _ => by simp [equivB] at h
  | .callable _ _, .list _, h, _, _ => by simp [equivB] at h
  | .callable _ _, .map _, h, _, _ => by simp [equivB] at h
  | .list _, .null, h, _, _ => by simp [equivB] at h
  | .list _, .boolean _, h, _, _ => by simp [equivB] at h
  | .list _, .int _, h, _, _ => by simp [equivB] at h
  | .list _, .str _, h, _, _ => by simp [equivB] at h
  | .list _, .callable _ _, h, _, _ => by simp [equivB] at h
  | .list _, .map _, h, _, _ => by simp [equivB] at h
  | .map _, .null, h, _, _ => by simp [equivB] at h
  | .map _, .boolean _, h, _, _ => by simp [equivB] at h
  | .map _, .int _, h, _, _ => by simp [equivB] at h
  | .map _, .str _, h, _, _ => by simp [equivB] at h
  | .map _, .callable _ _, h, _, _ => by simp [equivB] at h
  | .map _, .list _, h, _, _ => by simp [equivB] at h

theorem canonList_eq_of_equivListB : ∀ {xs ys : List ConfigVal}, equivListB xs ys = true →
    wfListB xs = true → wfListB ys = true → canonList xs = canonList ys
  | [], [], _, _, _ => rfl
  | x :: xs, y :: ys, h, wa, wb => by
      simp only [equivListB, Bool.and_eq_true] at h
      simp only [wfListB, Bool.and_eq_true] at wa wb
      simp [canonList, canonVal_eq_of_equivB h.1 wa.1 wb.1,
        canonList_eq_of_equivListB h.2 wa.2 wb.2]
  | [], _ :: _, h, _, _ => by simp [equivListB] at h
  | _ :: _, [], h, _, _ => by simp [equivListB] at h

theorem sortCanon_eq_of_equivMapB : ∀ {ps qs : List (String × ConfigVal)},
    equivMapB ps qs = true → (keysOf ps).Nodup → wfPairsB ps = true →
    (keysOf qs).Nodup → wfPairsB qs = true →
    sortPairs (canonPairs ps) = sortPairs (canonPairs qs)
  | [], [], _, _, _, _, _ => rfl
  | [], _ :: _, h, _, _, _, _ => by simp [equivMapB] at h
  | (k, v) :: ps, qs, h, hndp, wp, hndq, wq => by
      simp only [equivMapB] at h
      cases hx : extractKey k qs with
      | none => rw [hx] at h; exact absurd h (by simp)
      | some p =>
          obtain ⟨w, qs2⟩ := p
          rw [hx] at h
          simp only [Bool.and_eq_true] at h
          obtain ⟨hvw, hrest⟩ := h
          have hqperm : qs.Perm ((k, w) :: qs2) := extractKey_perm hx
          have hndq' : (keysOf ((k, w) :: qs2)).Nodup := ((hqperm.map Prod.fst)).nodup hndq
          have hndq2 : (keysOf qs2).Nodup := by
            have := List.nodup_cons.1 (show (k :: keysOf qs2).Nodup from hndq')
            exact this.2
          have hallq : ∀ p ∈ qs, wfB p.2 = true := (wfPairsB_iff_forall qs).1 wq
          have hw : wfB w = true :=
            hallq (k, w) (hqperm.symm.subset (List.mem_cons_self _ _))
          have hwfq2 : wfPairsB qs2 = true :=
            (wfPairsB_iff_forall qs2).2 fun p hp =>
              hallq p (hqperm.symm.subset (List.mem_cons_of_mem _ hp))
          have hndps : (keysOf ps).Nodup := by
            have := List.nodup_cons.1 (show (k :: keysOf ps).Nodup from hndp)
            exact this.2
          simp only [wfPairsB, Bool.and_eq_true] at wp
          have hcanon : canonVal v = canonVal w := canonVal_eq_of_equivB hvw wp.1 hw
          have ih : sortPairs (canonPairs ps) = sortPairs (canonPairs qs2) :=
            sortCanon_eq_of_equivMapB hrest hndps wp.2 hndq2 hwfq2
          have ih2 : List.insertionSort KeyLe (canonPairs ps) =
              List.insertionSort KeyLe (canonPairs qs2) := ih
          have hstep1 : sortPairs (canonPairs ((k, v) :: ps)) =
              sortPairs ((k, canonVal w) :: canonPairs qs2) := by
            simp only [canonPairs, sortPairs, List.insertionSort, hcanon, ih2]
          have hcp : (canonPairs qs).Perm (canonPairs ((k, w) :: qs2)) := by
            rw [canonPairs_eq_map, canonPairs_eq_map]
            exact hqperm.map _
          have hstep2 : sortPairs (canonPairs qs) = sortPairs (canonPairs ((k, w) :: qs2)) :=
            sortPairs_eq_of_perm hcp (by rwa [keysOf_canonPairs])
          rw [hstep1, hstep2]
          simp only [canonPairs]

end

mutual

theorem canonVal_eq_of_sameCallB : ∀ {a b : ConfigVal}, sameCallB a b = true →
    canonVal a = canonVal b
  | .null, .null, _ => rfl
  | .boolean _, .boolean _, h => by
      simp only [sameCallB, beq_iff_eq] at h; rw [h]
  | .int _, .int _, h => by
      simp only [sameCallB, beq_iff_eq] at h; rw [h]
  | .str _, .str _, h => by
      simp only [sameCallB, beq_iff_eq] at h; rw [h]
  | .callable _ _, .callable _ _, h => by
      simp only [sameCallB, beq_iff_eq] at h
      simp [canonVal, h]
  | .list _, .list _, h => by
      simp only [sameCallB] at h
      simp [canonVal, canonList_eq_of_sameCallListB h]
  | .map _, .map _, h => by
      simp only [sameCallB] at h
      simp [canonVal, canonPairs_eq_of_sameCallPairsB h]
  | .null, .boolean _, h => by simp [sameCallB] at h
  | .null, .int _, h => by simp [sameCallB] at h
  | .null, .str _, h => by simp [sameCallB] at h
  | .null, .callable _ _, h => by simp [sameCallB] at h
  | .null, .list _, h => by simp [sameCallB] at h
  | .null, .map _, h => by simp [sameCallB] at h
  | .boolean _, .null, h => by simp [sameCallB] at h
  | .boolean _, .int _, h => by simp [sameCallB] at h
  | .boolean _, .str _, h => by simp [sameCallB] at h
  | .boolean _, .callable _ _, h => by simp [sameCallB] at h
  | .boolean _, .list _, h => by simp [sameCallB] at h
  | .boolean _, .map _, h => by simp [sameCallB] at h
  | .int _, .null, h => by simp [sameCallB] at h
  | .int _, .boolean _, h => by simp [sameCallB] at h
  | .int _, .str _, h => by simp [sameCallB] at h
  | .int _, .callable _ _, h => by simp [sameCallB] at h
  | .int _, .list _, h => by simp [sameCallB] at h
  | .int _, .map _, h => by simp [sameCallB] at h
  | .str _, .null, h => by simp [sameCallB] at h
  | .str _, .boolean _, h => by simp [sameCallB] at h
  | .str _, .int _, h => by simp [sameCallB] at h
  | .str _, .callable _ _, h => by simp [sameCallB] at h
  | .str _, .list _, h => by simp [sameCallB] at h
  | .str _, .map _, h => by simp [sameCallB] at h
  | .callable _ _, .null, h => by simp [sameCallB] at h
  | .callable _ _, .boolean _, h => by simp [sameCallB] at h
  | .callable _ _, .int _, h => by simp [sameCallB] at h
  | .callable _ _, .str _, h => by simp [sameCallB] at h
  | .callable _ _, .list _, h => by simp [sameCallB] at h
  | .callable _ _, .map _, h => by simp [sameCallB] at h
  | .list _, .null, h => by simp [sameCallB] at h
  | .list _, .boolean _, h => by simp [sameCallB] at h
  | .list _, .int _, h => by simp [sameCallB] at h
  | .list _, .str _, h => by simp [sameCallB] at h
  | .list _, .callable _ _, h => by simp [sameCallB] at h
  | .list _, .map _, h => by simp [sameCallB] at h
  | .map _, .null, h => by simp [sameCallB] at h
  | .map _, .boolean _, h => by simp [sameCallB] at h
  | .map _, .int _, h => by simp [sameCallB] at h
  | .map _, .str _, h => by simp [sameCallB] at h
  | .map _, .callable _ _, h => by simp [sameCallB] at h
  | .map _, .list _, h => by simp [sameCallB] at h

theorem canonList_eq_of_sameCallListB : ∀ {xs ys : List ConfigVal},
    sameCallListB xs ys = true → canonList xs = canonList ys
  | [], [], _ => rfl
  | x :: xs, y :: ys, h => by
      simp only [sameCallListB, Bool.and_eq_true] at h
      simp [canonList, canonVal_eq_of_sameCallB h.1, canonList_eq_of_sameCallListB h.2]
  | [], _ :: _, h => by simp [sameCallListB] at h
  | _ :: _, [], h => by simp [sameCallListB] at h

theorem canonPairs_eq_of_sameCallPairsB : ∀ {ps qs : List (String × ConfigVal)},
    sameCallPairsB ps qs = true → canonPairs ps = canonPairs qs
  | [], [], _ => rfl
  | (k, v) :: ps, (k2, w) :: qs, h => by
      simp only [sameCallPairsB, Bool.and_eq_true, beq_iff_eq] at h
      simp [canonPairs, h.1.1, canonVal_eq_of_sameCallB h.1.2,
        canonPairs_eq_of_sameCallPairsB h.2]
  | [], _ :: _, h => by simp [sameCallPairsB] at h
  | _ :: _, [], h => by simp [sameCallPairsB] at h

end

/-! ## Claim theorems: configuration fingerprinting (C1, C2, C4) -/

/-- C1: For every two Environment configurations that differ only in the key
ordering of an equivalent mapping (e.g. the `cross_validation_params` dict
built in a different insertion order), the fingerprint computed at
`Environment` construction is the same.  Well-formedness (duplicate-free dict
keys, as in every Python dict) is assumed on both sides. -/
theorem env_fingerprint_key_order_invariant (c₁ c₂ : ConfigVal)
    (h : equivB c₁ c₂ = true) (w₁ : wfB c₁ = true) (w₂ : wfB c₂ = true) :
    fingerprint c₁ = fingerprint c₂ :=
  canonVal_eq_of_equivB h w₁ w₂

/-- Witness for C1: `dict(n_splits=5, n_repeats=2, random_state=32)` built in
two different insertion orders fingerprints identically. -/
theorem env_fingerprint_key_order_invariant_witness :
    fingerprint (ConfigVal.map [("n_splits", ConfigVal.int 5),
        ("n_repeats", ConfigVal.int 2), ("random_state", ConfigVal.int 32)]) =
      fingerprint (ConfigVal.map [("random_state", ConfigVal.int 32),
        ("n_splits", ConfigVal.int 5), ("n_repeats", ConfigVal.int 2)]) :=
  env_fingerprint_key_order_invariant _ _ (by decide) (by decide) (by decide)

/-- C2: Two Environment configurations that differ in a semantically
meaningful parameter — i.e. some key (such as `n_splits`, `runs` or
`cross_validation_type`) is mapped to values that remain different after
canonicalization — have different fingerprints. -/
theorem env_fingerprint_discriminates (kvs₁ kvs₂ : List (String × ConfigVal))
    (k : String) (v₁ v₂ : ConfigVal)
    (h₁ : lookupKey k kvs₁ = some v₁) (h₂ : lookupKey k kvs₂ = some v₂)
    (hne : canonVal v₁ ≠ canonVal v₂)
    (w₁ : nodupKeysB kvs₁ = true) (w₂ : nodupKeysB kvs₂ = true) :
    fingerprint (ConfigVal.map kvs₁) ≠ fingerprint (ConfigVal.map kvs₂) := by
  intro heq
  have hlists : sortPairs (canonPairs kvs₁) = sortPairs (canonPairs kvs₂) := by
    have : ConfigVal.map (sortPairs (canonPairs kvs₁)) =
        ConfigVal.map (sortPairs (canonPairs kvs₂)) := by
      simpa [fingerprint, canonVal] using heq
    injection this
  have l1 := lookupKey_fingerprint_map k kvs₁ ((nodupKeysB_iff _).1 w₁)
  have l2 := lookupKey_fingerprint_map k kvs₂ ((nodupKeysB_iff _).1 w₂)
  rw [hlists, l2, h₂] at l1
  rw [h₁] at l1
  simp at l1
  exact hne l1.symm

/-- Witness for C2: `cross_validation_params` with `n_splits=5` vs
`n_splits=3` (all other keys equal) fingerprint differently. -/
theorem env_fingerprint_discriminates_witness :
    fingerprint (ConfigVal.map [("n_splits", ConfigVal.int 5),
        ("n_repeats", ConfigVal.int 2), ("random_state", ConfigVal.int 32)]) ≠
      fingerprint (ConfigVal.map [("n_splits", ConfigVal.int 3),
        ("n_repeats", ConfigVal.int 2), ("random_state", ConfigVal.int 32)]) :=
  env_fingerprint_discriminates _ _ "n_splits" (ConfigVal.int 5) (ConfigVal.int 3)
    (by decide) (by decide) (by decide) (by decide) (by decide)

/-- C4: Configurations that are identical except for the memory identity of
callable values (e.g. a lambda metric re-created on a second run, with the
same name/source but a different `id()`) fingerprint identically: the
fingerprint depends only on the callable's semantic identity. -/
theorem env_fingerprint_callable_semantic (c₁ c₂ : ConfigVal)
    (h : sameCallB c₁ c₂ = true) : fingerprint c₁ = fingerprint c₂ :=
  canonVal_eq_of_sameCallB h

/-- Witness for C4: a metrics map containing a lambda metric, constructed on
two runs at different memory addresses, fingerprints identically. -/
theorem env_fingerprint_callable_semantic_witness :
    fingerprint (ConfigVal.map [("roc", ConfigVal.str "roc_auc_score"),
        ("acc", ConfigVal.callable "lambda _t, _p: accuracy_score(...)" 140210)]) =
      fingerprint (ConfigVal.map [("roc", ConfigVal.str "roc_auc_score"),
        ("acc", ConfigVal.callable "lambda _t, _p: accuracy_score(...)" 95313)]) :=
  env_fingerprint_callable_semantic _ _ (by decide)

/-! ## Similarity lookup (C3, C5)

Modelled from the spec: the optimizer "consults prior recorded experiments
whose Environment fingerprint matches" and classifies an experiment as
similar "if every hyperparameter either matches exactly or falls inside the
currently specified search dimension's bounds".  Continuous (`Real`)
dimension bounds are modelled over `ℚ`. -/

inductive HPVal where
  | int : Int → HPVal
  | num : ℚ → HPVal
  | str : String → HPVal
  | boolean : Bool → HPVal
deriving DecidableEq

inductive DimSpec where
  | fixed : HPVal → DimSpec
  | integerDim : Int → Int → DimSpec
  | realDim : ℚ → ℚ → DimSpec
  | categorical : List HPVal → DimSpec
deriving DecidableEq

/-- Modelled from the spec: does hyperparameter value `v` match the guideline
dimension `d` — exactly for concrete values, within bounds for `Integer` and
`Real` dimensions, by membership for `Categorical`? -/
def paramSatisfies : DimSpec → HPVal → Bool
  | .fixed w, v => v == w
  | .integerDim lo hi, .int n => decide (lo ≤ n) && decide (n ≤ hi)
  | .integerDim _ _, _ => false
  | .realDim lo hi, .num q => decide (lo ≤ q) && decide (q ≤ hi)
  | .realDim _ _, _ => false
  | .categorical cs, v => cs.contains v

def lookupDim (k : String) : List (String × DimSpec) → Option DimSpec
  | [] => none
  | (k2, d) :: rest => if k = k2 then some d else lookupDim k rest

/-- A recorded experiment: its Environment fingerprint, the hyperparameters
it used, and its experiment id. -/
structure ExperimentRecord where
  env_key : ConfigVal
  hyperparameters : List (String × HPVal)
  exp_id : String
deriving DecidableEq

/-- Modelled from the spec: an experiment is classified "similar" when every
one of its recorded hyperparameters matches the corresponding currently
specified guideline. -/
def experimentIsSimilar (space : List (String × DimSpec)) (e : ExperimentRecord) : Bool :=
  e.hyperparameters.all fun kv =>
    match lookupDim kv.1 space with
    | some d => paramSatisfies d kv.2
    | none => false

/-- Modelled from the spec: the similarity lookup consulted during
optimization keeps exactly the recorded experiments whose Environment
fingerprint equals the candidate's and whose hyperparameters fit the current
guidelines. -/
def find_similar_experiments (candidate : ConfigVal) (space : List (String × DimSpec))
    (records : List ExperimentRecord) : List ExperimentRecord :=
  records.filter fun e => e.env_key == candidate && experimentIsSimilar space e

/-- The claim's matching policy, stated propositionally: the value matches
the proposed value exactly or falls inside the dimension's bounds. -/
def DimMatches : DimSpec → HPVal → Prop
  | .fixed w, v => v = w
  | .integerDim lo hi, v => ∃ n, v = HPVal.int n ∧ lo ≤ n ∧ n ≤ hi
  | .realDim lo hi, v => ∃ q, v = HPVal.num q ∧ lo ≤ q ∧ q ≤ hi
  | .categorical cs, v => v ∈ cs

theorem paramSatisfies_iff (d : DimSpec) (v : HPVal) :
    paramSatisfies d v = true ↔ DimMatches d v := by
  cases d <;> cases v <;> simp [paramSatisfies, DimMatches]

/-- C3: every experiment returned by the similarity lookup has an Environment
fingerprint exactly equal to the candidate's; no experiment with a different
fingerprint is ever returned. -/
theorem similar_lookup_exact_fingerprint (candidate : ConfigVal)
    (space : List (String × DimSpec)) (records : List ExperimentRecord)
    (e : ExperimentRecord) (he : e ∈ find_similar_experiments candidate space records) :
    e.env_key = candidate := by
  have h := (List.mem_filter.1 he).2
  simp only [Bool.and_eq_true, beq_iff_eq] at h
  exact h.1

/-- Witness for C3: a concrete lookup over one matching record. -/
theorem similar_lookup_exact_fingerprint_witness :
    (ExperimentRecord.mk (ConfigVal.str "key0") [("num_leaves", HPVal.int 5)] "exp1").env_key
      = ConfigVal.str "key0" :=
  similar_lookup_exact_fingerprint (ConfigVal.str "key0")
    [("num_leaves", DimSpec.integerDim 2 8)]
    [ExperimentRecord.mk (ConfigVal.str "key0") [("num_leaves", HPVal.int 5)] "exp1"]
    (ExperimentRecord.mk (ConfigVal.str "key0") [("num_leaves", HPVal.int 5)] "exp1")
    (by decide)

/-- C5: an experiment is classified similar if and only if every one of its
hyperparameters matches the proposed value exactly or falls inside the bounds
of the corresponding currently specified search dimension. -/
theorem similar_iff_within_guidelines (space : List (String × DimSpec))
    (e : ExperimentRecord) :
    experimentIsSimilar space e = true ↔
      ∀ k v, (k, v) ∈ e.hyperparameters →
        ∃ d, lookupDim k space = some d ∧ DimMatches d v := by
  simp only [experimentIsSimilar, List.all_eq_true]
  constructor
  · intro h k v hkv
    have hx := h (k, v) hkv
    cases hd : lookupDim k space with
    | none => rw [hd] at hx; exact absurd hx (by simp)
    | some d => rw [hd] at hx; exact ⟨d, rfl, (paramSatisfies_iff d v).1 hx⟩
  · intro h kv hkv
    obtain ⟨d, hd, hm⟩ := h kv.1 kv.2 (by simpa using hkv)
    rw [hd]
    exact (paramSatisfies_iff _ _).2 hm

/-! ## Python exceptions and lightweight Python values -/

deriving instance DecidableEq for Except

/-- The Python exception kinds raised by the modelled code. -/
inductive PyExc where
  | typeError : PyExc
  | valueError : PyExc
  | fileNotFound : PyExc
  | nameError : PyExc
  | indexError : PyExc
  | keyError : PyExc
deriving DecidableEq, Repr

/-- A flat Python value, as can appear inside a `file_blacklist` list.  A
nested list or dict element is only ever type-checked, so it is carried as a
marker. -/
inductive PyFlat where
  | fNone : PyFlat
  | fStr : String → PyFlat
  | fInt : Int → PyFlat
  | fList : PyFlat
  | fDict : PyFlat
deriving DecidableEq

/-- A lightweight Python value, as passed for `file_blacklist` and the
`ReportingHandler` parameters.  Dict-typed parameters are only ever
`isinstance`-checked, so a dict is carried as a marker. -/
inductive PyLite where
  | pyNone : PyLite
  | pyStr : String → PyLite
  | pyInt : Int → PyLite
  | pyDict : PyLite
  | pyList : List PyFlat → PyLite
deriving DecidableEq

/-! ## Environment validators (C6, C7)

`validate_file_blacklist` and `define_holdout_set` live in
`environment.py`, which is not among the given sources; they are modelled
from the spec's error-handling contract and their tests
(`tests/test_environment.py`). -/

/-- Modelled from the spec/tests: the result-file names that may be
blacklisted. -/
def VALID_BLACKLIST_NAMES : List String :=
  ["description", "heartbeat", "predictions_oof", "predictions_holdout",
   "predictions_test", "script_backup", "tested_keys", "leaderboards",
   "global_leaderboard", "current_heartbeat"]

def isFStr : PyFlat → Bool
  | .fStr _ => true
  | _ => false

def flatStr : PyFlat → Option String
  | .fStr s => some s
  | _ => none

/-- Modelled from the spec/tests: `validate_file_blacklist`.  The string
`"ALL"` passes through; any other non-list raises `TypeError`
("Expected blacklist to be a list"); non-string contents raise `TypeError`
("Expected blacklist contents to be strings"); unknown names raise
`ValueError` ("Invalid blacklist value"); blacklisting `current_heartbeat`
also blacklists `heartbeat`. -/
def validate_file_blacklist (blacklist : PyLite) : Except PyExc PyLite :=
  if blacklist = .pyStr "ALL" then .ok (.pyStr "ALL")
  else
    match blacklist with
    | .pyList xs =>
        if !(xs.all isFStr) then .error .typeError
        else
          let names := xs.filterMap flatStr
          if !(names.all fun s => VALID_BLACKLIST_NAMES.contains s) then .error .valueError
          else
            let names2 :=
              if names.contains "current_heartbeat" && !(names.contains "heartbeat")
              then names ++ ["heartbeat"] else names
            .ok (.pyList (names2.map PyFlat.fStr))
    | _ => .error .typeError

/-- The `holdout_set` argument of `define_holdout_set`: `None`, a DataFrame
(carrying its column names), a callable, a CSV path string, or a value of any
other, unsupported type (e.g. an int or an ndarray). -/
inductive HoldoutArg where
  | hNone : HoldoutArg
  | hDataFrame : List String → HoldoutArg
  | hCallable : HoldoutArg
  | hStr : String → HoldoutArg
  | hOther : HoldoutArg
deriving DecidableEq

/-- Column sets match (order-insensitively). -/
def sameColumns (cols₁ cols₂ : List String) : Bool :=
  cols₁.all (cols₂.contains ·) && cols₂.all (cols₁.contains ·)

/-- Modelled from the spec/tests: `define_holdout_set`.  The filesystem is
passed in as the list of existing file paths.  A DataFrame with mismatched
columns raises `ValueError`; a path naming a missing file raises
`FileNotFoundError`; an unsupported type raises `TypeError`
("holdout_set must be None, DataFrame, callable, or str"). -/
def define_holdout_set (trainCols : List String) (holdout : HoldoutArg)
    (files : List String) : Except PyExc Unit :=
  match holdout with
  | .hNone => .ok ()
  | .hCallable => .ok ()
  | .hDataFrame cols => if sameColumns cols trainCols then .ok () else .error .valueError
  | .hStr path => if files.contains path then .ok () else .error .fileNotFound
  | .hOther => .error .typeError

/-! ## ReportingHandler parameter validation (C6, C7)

Embedded from `reporting.py`, `ReportingHandler.validate_parameters`
(lines 48-80) and `__init__` (lines 21-46).  The filesystem is passed in as
the list of paths for which `os.path.exists` is true. -/

/-- `str.startswith`, over character lists (the built-in `String.startsWith`
does not reduce in the kernel). -/
def strStartsWithB (s t : String) : Bool := s.toList.take t.toList.length == t.toList

/-- `str.endswith`, over character lists. -/
def strEndsWithB (s t : String) : Bool :=
  s.toList.reverse.take t.toList.length == t.toList.reverse

/-- `os.path.split`: split at the final slash; trailing slashes are stripped
from the head unless the head consists only of slashes. -/
def pathSplit (s : String) : String × String :=
  let rev := s.toList.reverse
  let tailRev := rev.takeWhile fun c => c ≠ '/'
  let headRev := rev.dropWhile fun c => c ≠ '/'
  let head := headRev.reverse
  let head2 :=
    if head.all (fun c => c == '/') then head
    else (head.reverse.dropWhile fun c => c == '/').reverse
  (String.mk head2, String.mk tailRev.reverse)

/-- The parameters validated by `ReportingHandler.validate_parameters`. -/
structure ReportingParams where
  reporting_type : PyLite
  heartbeat_path : PyLite
  float_format : PyLite
  console_params : PyLite
  heartbeat_params : PyLite
deriving DecidableEq

/-- `validate_parameters`, reporting_type block (reporting.py lines 49-54). -/
def checkReportingType (t : PyLite) : Except PyExc Unit :=
  match t with
  | .pyStr s =>
      if ["logging", "standard", "advanced"].contains s then .ok () else .error .valueError
  | _ => .error .typeError

/-- `validate_parameters`, heartbeat_path block (reporting.py lines 56-66):
type check, then the ".log" extension check, then existence of the head
directory. -/
def checkHeartbeatPath (existingPaths : List String) (hp : PyLite) : Except PyExc Unit :=
  match hp with
  | .pyNone => .ok ()
  | .pyStr s =>
      let ht := pathSplit s
      if !(strEndsWithB ht.2 ".log") then .error .valueError
      else if !(existingPaths.contains ht.1) then .error .fileNotFound
      else .ok ()
  | _ => .error .typeError

/-- `validate_parameters`, float_format block (reporting.py lines 68-72). -/
def checkFloatFormat (ff : PyLite) : Except PyExc Unit :=
  match ff with
  | .pyStr s =>
      if !(strStartsWithB s "\x7b") || !(strEndsWithB s "\x7d") then .error .valueError
      else .ok ()
  | _ => .error .typeError

/-- `validate_parameters`, console_params/heartbeat_params blocks
(reporting.py lines 74-80). -/
def checkDictParam (d : PyLite) : Except PyExc Unit :=
  match d with
  | .pyDict => .ok ()
  | _ => .error .typeError

/-- `ReportingHandler.validate_parameters` (reporting.py lines 48-80), with
the checks in source order. -/
def validate_parameters (existingPaths : List String) (p : ReportingParams) :
    Except PyExc Unit :=
  (checkReportingType p.reporting_type).bind fun _ =>
  (checkHeartbeatPath existingPaths p.heartbeat_path).bind fun _ =>
  (checkFloatFormat p.float_format).bind fun _ =>
  (checkDictParam p.console_params).bind fun _ =>
  checkDictParam p.heartbeat_params

/-- Python truthiness of a `PyLite` value: `None`, `0`, `""` and `[]` are
falsy.  The `pyDict` marker abstracts both empty and non-empty dicts; since
`d or \x7b\x7d` is a dict either way, treating it as truthy loses nothing. -/
def pyFalsy : PyLite → Bool
  | .pyNone => true
  | .pyInt n => n == 0
  | .pyStr s => s == ""
  | .pyList xs => xs.isEmpty
  | .pyDict => false

/-- `ReportingHandler.__init__` up to and including `validate_parameters`:
`reporting_type` is fixed to `"logging"`, and `console_params or \x7b\x7d` /
`heartbeat_params or \x7b\x7d` (reporting.py lines 39-40) replace every
falsy value by an empty dict. -/
def mkReportingHandler (existingPaths : List String)
    (heartbeat_path float_format console_params heartbeat_params : PyLite) :
    Except PyExc Unit :=
  let cp := if pyFalsy console_params then PyLite.pyDict else console_params
  let hbp := if pyFalsy heartbeat_params then PyLite.pyDict else heartbeat_params
  validate_parameters existingPaths
    ⟨PyLite.pyStr "logging", heartbeat_path, float_format, cp, hbp⟩

/-! ## Claim theorems: fail-fast validation (C6) and missing files (C7) -/

/-- C6: invalid configuration values fail fast with a descriptive validation
error (`TypeError` or `ValueError`): a non-list `file_blacklist` (other than
the string `"ALL"`), a non-string blacklist element, an unknown blacklist
name, a `holdout_set` of unsupported type, a `heartbeat_path` of wrong type
or without the `".log"` extension, and a truthy non-dict `console_params`
(falsy values are coerced to an empty dict by `console_params or \x7b\x7d`
and accepted). -/
theorem invalid_config_fails_fast :
    (∀ b : PyLite, (∀ xs, b ≠ PyLite.pyList xs) → b ≠ PyLite.pyStr "ALL" →
        validate_file_blacklist b = .error .typeError) ∧
    (∀ xs x, x ∈ xs → isFStr x = false →
        validate_file_blacklist (PyLite.pyList xs) = .error .typeError) ∧
    (∀ xs s, xs.all isFStr = true → PyFlat.fStr s ∈ xs →
        s ∉ VALID_BLACKLIST_NAMES →
        validate_file_blacklist (PyLite.pyList xs) = .error .valueError) ∧
    (∀ trainCols files,
        define_holdout_set trainCols HoldoutArg.hOther files = .error .typeError) ∧
    (∀ paths hp ff cp hbp, hp ≠ PyLite.pyNone → (∀ s, hp ≠ PyLite.pyStr s) →
        mkReportingHandler paths hp ff cp hbp = .error .typeError) ∧
    (∀ paths s ff cp hbp, strEndsWithB (pathSplit s).2 ".log" = false →
        mkReportingHandler paths (PyLite.pyStr s) ff cp hbp = .error .valueError) ∧
    (∀ paths cp hbp, cp ≠ PyLite.pyDict → pyFalsy cp = false →
        mkReportingHandler paths PyLite.pyNone (PyLite.pyStr "\x7b:.5f\x7d") cp hbp
          = .error .typeError) := by
  refine ⟨?_, ?_, ?_, ?_, ?_, ?_, ?_⟩
  · intro b h1 h2
    cases b with
    | pyNone => simp [validate_file_blacklist]
    | pyStr s => simp [validate_file_blacklist, h2]
    | pyInt n => simp [validate_file_blacklist]
    | pyDict => simp [validate_file_blacklist]
    | pyList xs => exact absurd rfl (h1 xs)
  · intro xs x hx hfalse
    have hall : xs.all isFStr = false := by
      cases h : xs.all isFStr with
      | false => rfl
      | true => exact absurd (List.all_eq_true.1 h x hx) (by simp [hfalse])
    simp [validate_file_blacklist, hall]
  · intro xs s hstr hs hinvalid
    simp [validate_file_blacklist, hstr]
    refine ⟨PyFlat.fStr s, hs, ?_⟩
    simp [flatStr, hinvalid]
  · intro trainCols files
    rfl
  · intro paths hp ff cp hbp h1 h2
    cases hp with
    | pyNone => exact absurd rfl h1
    | pyStr s => exact absurd rfl (h2 s)
    | pyInt n => rfl
    | pyDict => rfl
    | pyList xs => rfl
  · intro paths s ff cp hbp h
    simp [mkReportingHandler, validate_parameters, checkReportingType, checkHeartbeatPath,
      h, Except.bind]
  · intro paths cp hbp h1 h2
    cases cp with
    | pyNone => exact absurd h2 (by decide)
    | pyDict => exact absurd rfl h1
    | pyStr s =>
        have h2b : pyFalsy (PyLite.pyStr s) = false := h2
        simp only [mkReportingHandler, h2b]
        rfl
    | pyInt n =>
        have h2b : pyFalsy (PyLite.pyInt n) = false := h2
        simp only [mkReportingHandler, h2b]
        rfl
    | pyList xs =>
        have h2b : pyFalsy (PyLite.pyList xs) = false := h2
        simp only [mkReportingHandler, h2b]
        rfl

/-- Witness for C6: each invalid configuration from the tests produces its
validation error. -/
theorem invalid_config_fails_fast_witness :
    validate_file_blacklist (PyLite.pyInt 42) = .error .typeError ∧
    validate_file_blacklist (PyLite.pyList [PyFlat.fStr "foo", PyFlat.fNone])
      = .error .typeError ∧
    validate_file_blacklist (PyLite.pyList [PyFlat.fStr "description", PyFlat.fStr "foo"])
      = .error .valueError ∧
    define_holdout_set ["a", "b"] HoldoutArg.hOther [] = .error .typeError ∧
    mkReportingHandler [] (PyLite.pyInt 7) (PyLite.pyStr "\x7b:.5f\x7d")
      PyLite.pyDict PyLite.pyDict = .error .typeError ∧
    mkReportingHandler [] (PyLite.pyStr "results/heartbeat.txt")
      (PyLite.pyStr "\x7b:.5f\x7d") PyLite.pyDict PyLite.pyDict = .error .valueError ∧
    mkReportingHandler [] PyLite.pyNone (PyLite.pyStr "\x7b:.5f\x7d") (PyLite.pyInt 1)
      PyLite.pyDict = .error .typeError :=
  ⟨invalid_config_fails_fast.1 _ (fun _ h => PyLite.noConfusion h) (by decide),
   invalid_config_fails_fast.2.1 _ PyFlat.fNone (by decide) (by decide),
   invalid_config_fails_fast.2.2.1 _ "foo" (by decide) (by decide) (by decide),
   invalid_config_fails_fast.2.2.2.1 _ _,
   invalid_config_fails_fast.2.2.2.2.1 _ _ _ _ _ (by decide) (fun _ h => PyLite.noConfusion h),
   invalid_config_fails_fast.2.2.2.2.2.1 _ _ _ _ _ (by decide),
   invalid_config_fails_fast.2.2.2.2.2.2 _ _ _ (by decide) (by decide)⟩

/-- C7: configurations referring to a missing file raise `FileNotFoundError`:
a holdout dataset path naming a file that does not exist, and a
`heartbeat_path` whose directory does not exist. -/
theorem missing_file_not_found :
    (∀ trainCols path files, path ∉ files →
        define_holdout_set trainCols (HoldoutArg.hStr path) files = .error .fileNotFound) ∧
    (∀ paths s ff cp hbp, strEndsWithB (pathSplit s).2 ".log" = true →
        (pathSplit s).1 ∉ paths →
        mkReportingHandler paths (PyLite.pyStr s) ff cp hbp = .error .fileNotFound) := by
  constructor
  · intro trainCols path files h
    simp [define_holdout_set, h]
  · intro paths s ff cp hbp h1 h2
    simp [mkReportingHandler, validate_parameters, checkReportingType, checkHeartbeatPath,
      h1, h2, Except.bind]

/-- Witness for C7: a missing holdout CSV and a heartbeat path in a
non-existent directory. -/
theorem missing_file_not_found_witness :
    define_holdout_set ["a", "b"] (HoldoutArg.hStr "foo") [] = .error .fileNotFound ∧
    mkReportingHandler [] (PyLite.pyStr "results/heart.log") (PyLite.pyStr "\x7b:.5f\x7d")
      PyLite.pyDict PyLite.pyDict = .error .fileNotFound :=
  ⟨missing_file_not_found.1 _ _ _ (by decide),
   missing_file_not_found.2 _ _ _ _ _ (by decide) (by decide)⟩

/-! ## The module-level `log` function of reporting.py (C8) -/

/-- A value passed in `contents` to `reporting.log`.  A float is carried as
its `float_format`-rendered text (it only flows through formatting); `exc`
is an Exception instance carrying its repr; `noneVal` stands for `None`. -/
inductive LogContent where
  | str : String → LogContent
  | float : String → LogContent
  | int : Int → LogContent
  | exc : String → LogContent
  | noneVal : LogContent
deriving DecidableEq

/-- `re.match` of the character class digit-or-space against a single
character (reporting.py line 591 applies it to `val[0]`). -/
def isDigitOrSpace (c : Char) : Bool := c.isDigit || c == ' '

/-- One iteration of the content loop of `log` (reporting.py lines 589-602):
a str appends `sep ++ val`, or just `val` if its first character is a digit
or a space (an empty str raises `IndexError` from `val[0]`); a float appends
its formatted text; any other value evaluates `isinstance(value, Exception)`
where `value` is an undefined name, raising `NameError`. -/
def logStep (sep : String) (msg : String) : LogContent → Except PyExc String
  | .str s =>
      match s.toList with
      | [] => .error .indexError
      | c :: _ => .ok (msg ++ (if isDigitOrSpace c then "" else sep) ++ s)
  | .float f => .ok (msg ++ f)
  | _ => .error .nameError

/-- The message-building part of `log` (reporting.py lines 585-604): start
from `pad * log_pad`, fold `logStep` over `contents`, append a final `sep`. -/
def logMessage (contents : List LogContent) (pad : String) (logPad : Nat)
    (sep : String) : Except PyExc String :=
  (contents.foldlM (logStep sep) (String.join (List.replicate logPad pad))).map
    fun m => m ++ sep

/-- Neither a Python `str` nor a `float`. -/
def notStrFloat : LogContent → Bool
  | .str _ => false
  | .float _ => false
  | _ => true

/-- A content value the loop consumes without raising: a non-empty str or a
float. -/
def strOrFloatOk : LogContent → Bool
  | .str s => !(s.toList == [])
  | .float _ => true
  | _ => false

theorem logStep_ok_of (sep m : String) (x : LogContent)
    (hx : strOrFloatOk x = true) : ∃ m2, logStep sep m x = .ok m2 := by
  cases x with
  | str s =>
      cases hs : s.toList with
      | nil => rw [strOrFloatOk, hs] at hx; simp at hx
      | cons c cs => exact ⟨_, by rw [logStep, hs]⟩
  | float f => exact ⟨_, rfl⟩
  | int n => simp [strOrFloatOk] at hx
  | exc r => simp [strOrFloatOk] at hx
  | noneVal => simp [strOrFloatOk] at hx

theorem foldlM_logStep_nameerror (sep : String) (v : LogContent) (post : List LogContent)
    (hv : notStrFloat v = true) :
    ∀ (pre : List LogContent) (init : String), (∀ x ∈ pre, strOrFloatOk x = true) →
      (pre ++ v :: post).foldlM (logStep sep) init = .error .nameError
  | [], init, _ => by
      have hstep : logStep sep init v = .error .nameError := by
        cases v with
        | str s => simp [notStrFloat] at hv
        | float f => simp [notStrFloat] at hv
        | int n => rfl
        | exc r => rfl
        | noneVal => rfl
      rw [List.nil_append, List.foldlM_cons, hstep]
      rfl
  | x :: pre2, init, hpre => by
      obtain ⟨m2, hm2⟩ := logStep_ok_of sep init x (hpre x (List.mem_cons_self _ _))
      have ih := foldlM_logStep_nameerror sep v post hv pre2 m2
        fun y hy => hpre y (List.mem_cons_of_mem _ hy)
      rw [List.cons_append, List.foldlM_cons, hm2]
      exact ih

/-- Counterexample to C8 as stated: `log('', 5)` has contents including a
value (`5`) that is neither a str nor a float, yet it raises `IndexError`
(from `val[0]` on the preceding empty string), not `NameError`. -/
theorem log_nameerror_counterexample :
    logMessage [LogContent.str "", LogContent.int 5] "#" 1 "   " = .error .indexError ∧
    logMessage [LogContent.str "", LogContent.int 5] "#" 1 "   " ≠ .error .nameError := by
  constructor
  · rfl
  · intro h
    exact absurd (rfl.trans h) (by decide)

/-- C8 (amended): a call to `reporting.log` whose contents include a value
that is neither a str nor a float raises `NameError` — provided every value
before the first such value is a non-empty str or a float (an empty str
raises `IndexError` from `val[0]` first).  The `NameError` comes from the
branch intended for Exception values, which tests the undefined name
`value` instead of `val`. -/
theorem log_raises_nameerror (pre : List LogContent) (v : LogContent)
    (post : List LogContent) (pad sep : String) (logPad : Nat)
    (hpre : ∀ x ∈ pre, strOrFloatOk x = true) (hv : notStrFloat v = true) :
    logMessage (pre ++ v :: post) pad logPad sep = .error .nameError := by
  rw [logMessage, foldlM_logStep_nameerror sep v post hv pre _ hpre]
  rfl

/-- Witness for C8: `log('OOF RMSLE: ', <float>, 3)` raises `NameError` at
the int content. -/
theorem log_raises_nameerror_witness :
    logMessage [LogContent.str "OOF RMSLE: ", LogContent.float "0.38592",
      LogContent.int 3] "#" 1 "   " = .error .nameError :=
  log_raises_nameerror [LogContent.str "OOF RMSLE: ", LogContent.float "0.38592"]
    (LogContent.int 3) [] "#" "   " 1 (by decide) (by decide)

/-! ## file_utils.add_to_json (C9) -/

/-- A parsed JSON value.  Numbers are restricted to integers: no claim
depends on fractional values. -/
inductive Json where
  | null : Json
  | boolean : Bool → Json
  | num : Int → Json
  | str : String → Json
  | arr : List Json → Json
  | obj : List (String × Json) → Json

def isArr : Json → Bool
  | .arr _ => true
  | _ => false

def isObj : Json → Bool
  | .obj _ => true
  | _ => false

/-- Python dict lookup `d[k]` over the modelled JSON object. -/
def lookupJson (k : String) : List (String × Json) → Option Json
  | [] => none
  | (k2, v) :: rest => if k = k2 then some v else lookupJson k rest

/-- Python dict assignment `d[k] = v`: replace in place, or append. -/
def setKeyJson (k : String) (v : Json) : List (String × Json) → List (String × Json)
  | [] => [(k, v)]
  | (k2, w) :: rest => if k = k2 then (k2, v) :: rest else (k2, w) :: setKeyJson k v rest

/-- The condition guard of `add_to_json` (file_utils.py line 130):
`condition is None or original_data is None or condition(original_data)`
(`None` is the parse of JSON `null`). -/
def condPassesB (original : Json) (condition : Option (Json → Bool)) : Bool :=
  match condition with
  | none => true
  | some c => (match original with | Json.null => true | _ => false) || c original

/-- The body of `add_to_json` after the read (file_utils.py lines 130-139):
when the condition passes, append to a list (`key is None`), or set/append
under `key` in a dict, then write; any other (key, content) shape writes the
original content unchanged.  `original_data[key] + [data_to_add]` raises
`KeyError` for a missing key and `TypeError` for a non-list value. -/
def addToJsonBody (original : Json) (data_to_add : Json) (key : Option String)
    (condition : Option (Json → Bool)) (append_value : Bool) :
    Except PyExc (Option Json) :=
  if condPassesB original condition then
    match key, original with
    | none, Json.arr xs => .ok (some (Json.arr (xs ++ [data_to_add])))
    | some k, Json.obj kvs =>
        if append_value then
          match lookupJson k kvs with
          | none => .error .keyError
          | some (Json.arr vs) =>
              .ok (some (Json.obj (setKeyJson k (Json.arr (vs ++ [data_to_add])) kvs)))
          | some _ => .error .typeError
        else .ok (some (Json.obj (setKeyJson k data_to_add kvs)))
    | _, _ => .ok (some original)
  else .ok none

/-- `add_to_json` (file_utils.py lines 94-139).  The file is passed as
`some content` (parsed JSON) or `none` (reading raises `FileNotFoundError`,
handled via `default`).  The result is `.ok (some c)` when the file is
rewritten with content `c`, `.ok none` when the condition fails and the file
is left untouched, and `.error e` when an exception propagates. -/
def add_to_json (file : Option Json) (data_to_add : Json) (key : Option String)
    (condition : Option (Json → Bool)) (dflt : Option Json) (append_value : Bool) :
    Except PyExc (Option Json) :=
  match file, dflt with
  | none, none => .error .fileNotFound
  | none, some d => addToJsonBody d data_to_add key condition append_value
  | some content, _ => addToJsonBody content data_to_add key condition append_value

/-- C9: when the file reads successfully and the condition passes, a
(key, original-content) combination matching neither supported shape —
`key = None` with non-list content, or a string key with non-dict content —
silently discards `data_to_add`: no error is raised and the file is
rewritten with exactly its original content. -/
theorem add_to_json_shape_mismatch_silent (content data_to_add : Json)
    (key : Option String) (condition : Option (Json → Bool)) (dflt : Option Json)
    (append_value : Bool)
    (hcond : condPassesB content condition = true)
    (hshape : (key = none ∧ isArr content = false) ∨
      (∃ k, key = some k ∧ isObj content = false)) :
    add_to_json (some content) data_to_add key condition dflt append_value
      = .ok (some content) := by
  rcases hshape with ⟨rfl, harr⟩ | ⟨k, rfl, hobj⟩
  · cases content <;> simp_all [add_to_json, addToJsonBody, isArr]
  · cases content <;> simp_all [add_to_json, addToJsonBody, isObj]

/-- Witness for C9: a file holding the string `"v0"`, `key = None`,
`condition = None`: the file is rewritten with `"v0"` and `7` is discarded. -/
theorem add_to_json_shape_mismatch_silent_witness :
    add_to_json (some (Json.str "v0")) (Json.num 7) none none none false
      = .ok (some (Json.str "v0")) :=
  add_to_json_shape_mismatch_silent (Json.str "v0") (Json.num 7) none none none false
    rfl (Or.inl ⟨rfl, rfl⟩)

/-! ## OptimizationReporter.print_result (C10) -/

/-- The result-tracking state of `OptimizationReporter` (reporting.py lines
219-248): `verbose` (a Python int, falsy exactly at 0), the best evaluation
seen so far (`y_max`), the hyperparameters that achieved it (`x_max`), and
the number of completed `print_result` calls (`iteration`).  Evaluations are
modelled as integers (a total order; IEEE NaN is outside the model);
timestamps, which only feed printing, are omitted.  `χ` is the type of the
hyperparameter lists, which `print_result` only stores. -/
structure OptimizationReporter (χ : Type) where
  verbose : Nat
  y_max : Option Int
  x_max : Option χ
  iteration : Nat

/-- `OptimizationReporter.__init__`: `y_max = x_max = None`,
`iteration = 0`. -/
def initReporter (χ : Type) (verbose : Nat) : OptimizationReporter χ :=
  ⟨verbose, none, none, 0⟩

/-- `print_result` (reporting.py lines 288-316): return unchanged when
`verbose` is falsy; otherwise, when `y_max is None or y_max < evaluation`,
record `evaluation` and `hyperparameters` as the new best, and finally
increment `iteration`. -/
def print_result {χ : Type} (r : OptimizationReporter χ) (hyperparameters : χ)
    (evaluation : Int) : OptimizationReporter χ :=
  if r.verbose = 0 then r
  else
    let r2 :=
      if (match r.y_max with | none => true | some m => decide (m < evaluation)) then
        { r with y_max := some evaluation, x_max := some hyperparameters }
      else r
    { r2 with iteration := r2.iteration + 1 }

/-- A sequence of `print_result` calls, each carrying the hyperparameters
and the evaluation of one experiment. -/
def runPrintResults {χ : Type} (r : OptimizationReporter χ) :
    List (χ × Int) → OptimizationReporter χ
  | [] => r
  | (h, e) :: rest => runPrintResults (print_result r h e) rest

theorem print_result_verbose {χ : Type} (r : OptimizationReporter χ) (h : χ) (e : Int) :
    (print_result r h e).verbose = r.verbose := by
  simp only [print_result]
  split
  · rfl
  · split <;> rfl

theorem print_result_iteration {χ : Type} (r : OptimizationReporter χ) (h : χ) (e : Int)
    (hv : r.verbose ≠ 0) : (print_result r h e).iteration = r.iteration + 1 := by
  simp only [print_result, if_neg hv]
  split <;> rfl

theorem runPrintResults_iteration {χ : Type} (r : OptimizationReporter χ)
    (calls : List (χ × Int)) (hv : r.verbose ≠ 0) :
    (runPrintResults r calls).iteration = r.iteration + calls.length := by
  induction calls generalizing r with
  | nil => simp [runPrintResults]
  | cons p rest ih =>
      obtain ⟨h, e⟩ := p
      have hv2 : (print_result r h e).verbose ≠ 0 := by
        rwa [print_result_verbose]
      rw [runPrintResults, ih _ hv2, print_result_iteration r h e hv, List.length_cons]
      omega

/-- The running-maximum step implemented by the `y_max` update of
`print_result`. -/
def maxStep (o : Option Int) (e : Int) : Option Int :=
  match o with
  | none => some e
  | some m => if m < e then some e else some m

theorem print_result_y_max {χ : Type} (r : OptimizationReporter χ) (h : χ) (e : Int)
    (hv : r.verbose ≠ 0) : (print_result r h e).y_max = maxStep r.y_max e := by
  simp only [print_result, if_neg hv, maxStep]
  cases hy : r.y_max with
  | none => simp
  | some m => by_cases hlt : m < e <;> simp [hlt, hy]

theorem runPrintResults_y_max {χ : Type} (r : OptimizationReporter χ)
    (calls : List (χ × Int)) (hv : r.verbose ≠ 0) :
    (runPrintResults r calls).y_max = (calls.map Prod.snd).foldl maxStep r.y_max := by
  induction calls generalizing r with
  | nil => simp [runPrintResults]
  | cons p rest ih =>
      obtain ⟨h, e⟩ := p
      have hv2 : (print_result r h e).verbose ≠ 0 := by
        rwa [print_result_verbose]
      rw [runPrintResults, ih _ hv2, List.map_cons, List.foldl_cons,
        print_result_y_max r h e hv]

theorem foldl_maxStep_some (l : List Int) (m : Int) :
    l.foldl maxStep (some m) = some (l.foldl max m) := by
  induction l generalizing m with
  | nil => rfl
  | cons a l ih =>
      have hstep : maxStep (some m) a = some (max m a) := by
        simp only [maxStep]
        rcases lt_or_ge m a with hc | hc
        · rw [if_pos hc, max_eq_right hc.le]
        · rw [if_neg (not_lt.2 hc), max_eq_left hc]
      rw [List.foldl_cons, hstep, ih, List.foldl_cons]

theorem foldl_maxStep_none (l : List Int) : l.foldl maxStep none = l.max? := by
  cases l with
  | nil => rfl
  | cons a l =>
      rw [List.foldl_cons, show maxStep none a = some a from rfl, foldl_maxStep_some]
      rfl

theorem runPrintResults_x_max {χ : Type} (r : OptimizationReporter χ)
    (calls : List (χ × Int)) (hv : r.verbose ≠ 0) (Q : χ × Int → Prop)
    (hbase : ∀ m, r.y_max = some m → ∃ x, r.x_max = some x ∧ Q (x, m))
    (hcalls : ∀ p ∈ calls, Q p) :
    ∀ m, (runPrintResults r calls).y_max = some m →
      ∃ x, (runPrintResults r calls).x_max = some x ∧ Q (x, m) := by
  induction calls generalizing r with
  | nil => simpa [runPrintResults] using hbase
  | cons p rest ih =>
      obtain ⟨h, e⟩ := p
      rw [runPrintResults]
      apply ih
      · rwa [print_result_verbose]
      · intro m hm
        by_cases hupd :
            (match r.y_max with | none => true | some m0 => decide (m0 < e)) = true
        · have hset : (print_result r h e).y_max = some e ∧
              (print_result r h e).x_max = some h := by
            simp [print_result, if_neg hv, hupd]
          rw [hset.1] at hm
          obtain rfl : e = m := by injection hm
          exact ⟨h, hset.2, hcalls (h, e) (List.mem_cons_self _ _)⟩
        · have hkeep : (print_result r h e).y_max = r.y_max ∧
              (print_result r h e).x_max = r.x_max := by
            simp [print_result, if_neg hv, hupd]
          rw [hkeep.1] at hm
          obtain ⟨x, hx, hq⟩ := hbase m hm
          exact ⟨x, hkeep.2 ▸ hx, hq⟩
      · intro q hq
        exact hcalls q (List.mem_cons_of_mem _ hq)

/-- C10: starting from a fresh `OptimizationReporter` with truthy `verbose`,
after any sequence of `print_result` calls `iteration` equals the number of
calls, `y_max` equals the maximum evaluation passed so far, and `x_max`
equals hyperparameters that accompanied that maximum evaluation in one of
the calls; with falsy `verbose`, `print_result` leaves the whole state
unchanged. -/
theorem print_result_tracks_max {χ : Type} (verbose : Nat) (calls : List (χ × Int)) :
    (verbose ≠ 0 →
      (runPrintResults (initReporter χ verbose) calls).iteration = calls.length ∧
      (runPrintResults (initReporter χ verbose) calls).y_max
        = (calls.map Prod.snd).max? ∧
      (∀ m, (runPrintResults (initReporter χ verbose) calls).y_max = some m →
        ∃ x, (runPrintResults (initReporter χ verbose) calls).x_max = some x ∧
          (x, m) ∈ calls)) ∧
    (∀ (r : OptimizationReporter χ) (h : χ) (e : Int), r.verbose = 0 →
      print_result r h e = r) := by
  constructor
  · intro hv
    refine ⟨?_, ?_, ?_⟩
    · rw [runPrintResults_iteration _ _ hv]
      simp [initReporter]
    · rw [runPrintResults_y_max _ _ hv, show (initReporter χ verbose).y_max = none from rfl,
        foldl_maxStep_none]
    · exact runPrintResults_x_max _ _ hv (fun p => p ∈ calls)
        (fun m hm => by simp [initReporter] at hm) (fun p hp => hp)
  · intro r h e h0
    simp [print_result, h0]

/-- Witness for C10: two verbose calls with evaluations 3 then 5, and one
call on a silenced reporter. -/
theorem print_result_tracks_max_witness :
    (runPrintResults (initReporter String 1) [("a", 3), ("b", 5)]).iteration = 2 ∧
    (runPrintResults (initReporter String 1) [("a", 3), ("b", 5)]).y_max = some 5 ∧
    (∃ x, (runPrintResults (initReporter String 1) [("a", 3), ("b", 5)]).x_max = some x ∧
      (x, (5 : Int)) ∈ [("a", (3 : Int)), ("b", 5)]) ∧
    print_result (initReporter String 0) "c" 9 = initReporter String 0 := by
  have h := (print_result_tracks_max (χ := String) 1 [("a", 3), ("b", 5)]).1 (by decide)
  have h0 := (print_result_tracks_max (χ := String) 0 []).2 (initReporter String 0) "c" 9 rfl
  refine ⟨h.1, ?_, ?_, h0⟩
  · rw [h.2.1]
    rfl
  · exact h.2.2 5 (by rw [h.2.1]; rfl)
